import Mathlib

/-!
Shallow embedding of `dataviews/collector.py`: the `ViewGroup` namespace
tree, `ViewRef` deferred references, `Aggregator`/`Analysis` tasks and the
`Collector` scheduler, together with proofs about the behaviour of these
operations.

Machine conventions: Python exceptions are modelled with `Except Err`;
simulation time values are modelled as `Int`; ordered Python dicts are
modelled as association lists in insertion order (the `children`
list-plus-`__dict__` pair of a `ViewGroup` node is modelled as the ordered
association structure `VChildren`).  The model is pure: where Python
mutates an object in place, the model returns the updated value, and where
Python stores an object reference (e.g. a subtree propagated into the
root's flat index), the model stores the value as of that moment; no claim
below inspects the interior of such a stored subtree afterwards.
-/

set_option maxHeartbeats 1000000

namespace Dataviews

/-- The Python exceptions raised by the code, by site. -/
inductive Err where
  /-- `AttributeError(self._fixed_error)` from `ViewGroup.__setattr__` /
  `__getattr__` when the node is fixed. -/
  | fixedTree
  /-- `AttributeError("Could not resolve %r at level %r")` from
  `ViewRef._resolve_ref`: carries the full dotted specification and the
  first missing label. -/
  | unresolvedRef (spec : String) (label : String)
  /-- The two exceptions raised by `Collector._schedule_tasks`. -/
  | scheduling (msg : String)
  /-- `Exception("Aggregation path not set.")` from `Aggregator.__call__`. -/
  | unscheduledTask
  /-- `Exception("Return value is not a ViewGroup and mode is 'merge'.")`. -/
  | typeMismatch
  /-- `Exception("Time dimension is missing.")` from `_merge_views`. -/
  | missingTimeDimension
  /-- An attribute/type error arising from calling `update` on a pair of
  values of incompatible kinds (e.g. a leaf updated with a subtree). -/
  | updateMismatch
  /-- An attribute error from walking into or operating on a value that is
  not a `ViewGroup` where one is required (e.g. `set_path` through a leaf). -/
  | notAGroup
  /-- Applying an index/slice to a value that does not support it. -/
  | badIndex
  /-- A Python `KeyError` (dict lookup of an absent key). -/
  | keyError
  /-- A Python `IndexError` (`times[-1]` on an empty list). -/
  | indexError
deriving DecidableEq

@[simp] theorem except_bind_ok {α β : Type} (a : α) (f : α → Except Err β) :
    (Except.ok a : Except Err α) >>= f = f a := rfl

@[simp] theorem except_bind_err {α β : Type} (e : Err) (f : α → Except Err β) :
    (Except.error e : Except Err α) >>= f = .error e := rfl

@[simp] theorem except_map_ok {α β : Type} (a : α) (f : α → β) :
    Except.map f (Except.ok a : Except Err α) = .ok (f a) := rfl

@[simp] theorem except_map_err {α β : Type} (e : Err) (f : α → β) :
    Except.map f (Except.error e : Except Err α) = .error e := rfl

@[simp] theorem except_ok_ne_error {α : Type} (a : α) (e : Err) :
    (Except.ok a : Except Err α) ≠ .error e := by
  intro h
  cases h

/-- Key-ordered association-list lookup (first match wins, as in a Python
dict, whose keys are unique). -/
def lookupA {α β : Type} [DecidableEq α] : List (α × β) → α → Option β
  | [], _ => none
  | (k, v) :: r, k2 => if k = k2 then some v else lookupA r k2

/-- Replace the value stored at a key, keeping list order (the effect of
`self.__dict__[label] = val` for an existing attribute; keys are unique). -/
def replaceA {α β : Type} [DecidableEq α] : List (α × β) → α → β → List (α × β)
  | [], _, _ => []
  | (k0, v0) :: r, k, v =>
      if k0 = k then (k, v) :: r else (k0, v0) :: replaceA r k v

/-- Python `d[k] = v` on an ordered dict: replace in place if the key is
present, otherwise append. -/
def upd {α β : Type} [DecidableEq α] (m : List (α × β)) (k : α) (v : β) :
    List (α × β) :=
  if (m.map Prod.fst).contains k then replaceA m k v
  else m ++ [(k, v)]

/-- Python `d1.update(d2)` on ordered dicts: fold `upd` over `d2`. -/
def dictUpdate {α β : Type} [DecidableEq α] (m : List (α × β))
    (m2 : List (α × β)) : List (α × β) :=
  m2.foldl (fun acc p => upd acc p.1 p.2) m

/-- Leaf values stored in a `ViewGroup`.  The View/Stack/Overlay classes
live in `views.py`, which is not part of the sources; modelled from the
spec: a leaf value is either a plain view (with a title, opaque data and
the record of the slices applied to it so far), a time-series container
(`Stack`/`NdMapping`: an ordered mapping from time keys to views, with
dimension labels), or a layered overlay of leaf values. -/
inductive Leaf where
  | view (title : String) (data : String) (slcs : List Nat)
  | stack (dims : List String) (entries : List (Int × Leaf))
  | overlayV (layers : List Leaf)

instance : Inhabited Leaf := ⟨.view "" "" []⟩

/-- The layers of a leaf (an overlay contributes its list of layers, any
other view is a single layer). -/
def Leaf.layers : Leaf → List Leaf
  | .overlayV ls => ls
  | v => [v]

/-- Modelled from the spec: the overlay composition operator `*` on leaf
values combines two leaf values into one layered result (`views.py` is not
part of the sources). -/
def Leaf.mul (a b : Leaf) : Leaf := .overlayV (a.layers ++ b.layers)

/-- Modelled from the spec: the slice/index operator on a leaf value
(`view[slc]`); a base view records the applied index.  Containers are not
sliced by any modelled code path. -/
def Leaf.index (v : Leaf) (i : Nat) : Leaf :=
  match v with
  | .view t d s => .view t d (s ++ [i])
  | x => x

/-- Modelled from the spec: `NdMapping.update` on time-series containers
performs a dict-style update of the key-to-value entries; calling `update`
on any other pair of leaf kinds is a type error (`views.py` is not part of
the sources). -/
def Leaf.updateL : Leaf → Leaf → Except Err Leaf
  | .stack d es, .stack _ es2 => .ok (.stack d (dictUpdate es es2))
  | _, _ => .error .updateMismatch

/-- The title of a leaf value, when it has one. -/
def Leaf.titleOf : Leaf → Option String
  | .view t _ _ => some t
  | _ => none

/-- Rewrite the title of a base view. -/
def Leaf.withTitle : Leaf → String → Leaf
  | .view _ d s, t => .view t d s
  | x, _ => x

mutual
/-- A node of the `ViewGroup` tree below the root: either a nested
`ViewGroup` (with its own `_fixed` flag and ordered children) or a leaf
value stored by attribute assignment. -/
inductive VEntry where
  | sub (fixed : Bool) (children : VChildren)
  | leaf (v : Leaf)

/-- The ordered children of a `ViewGroup` node: the `children` label list
together with the `__dict__` values, i.e. an insertion-ordered association
structure from label to entry. -/
inductive VChildren where
  | nil
  | cons (label : String) (e : VEntry) (rest : VChildren)
end

instance : Inhabited VEntry := ⟨.leaf default⟩

/-- `label in self.children` combined with the `self.__dict__[label]` read. -/
def lookupC : VChildren → String → Option VEntry
  | .nil, _ => none
  | .cons k v r, k2 => if k = k2 then some v else lookupC r k2

/-- Append a new child at the end (`children.append(label)` plus the
`__dict__` store). -/
def appendC : VChildren → String → VEntry → VChildren
  | .nil, l, e => .cons l e .nil
  | .cons k v r, l, e => .cons k v (appendC r l e)

/-- Overwrite the value of an existing label, keeping order. -/
def replaceC : VChildren → String → VEntry → VChildren
  | .nil, _, _ => .nil
  | .cons k v r, l, e =>
      if k = l then .cons l e r else .cons k v (replaceC r l e)

/-- The ordered label list of a children structure. -/
def keysC : VChildren → List String
  | .nil => []
  | .cons l _ r => l :: keysC r

/-- A root `ViewGroup`: its `_fixed` flag, its ordered children and the
root-only flat `path_items` index (populated by `_propagate`; the values
can be leaf values or whole subtrees, both are `VEntry`s). -/
structure ViewGroup where
  fixed : Bool
  children : VChildren
  path_items : List (List String × VEntry)

/-- The empty `ViewGroup()`. -/
def emptyVG : ViewGroup :=
  { fixed := false, children := .nil, path_items := [] }

/-- Read-only structural walk of the tree (plain repeated `__getitem__`,
used to state theorems about what a finished tree contains). -/
def treeGetE : VEntry → List String → Option VEntry
  | e, [] => some e
  | .sub _ cs, l :: rest =>
      (match lookupC cs l with
       | some e => treeGetE e rest
       | none => none)
  | .leaf _, _ :: _ => none

/-- Structural lookup of a path from the root of a `ViewGroup`. -/
def treeGet (g : ViewGroup) (p : List String) : Option VEntry :=
  treeGetE (.sub g.fixed g.children) p

/-- `ViewGroup.__setattr__` on a node sitting at the given depth (0 for the
root): raise the fixed error when the node's own `_fixed` flag is set and
the node is shallow (itself the root or a first-level child); otherwise
store the value in `__dict__`, and — when the label is new — append it to
`children` and return the `(label,) -> val` item `_propagate` would push
to the root (the caller prefixes the labels on the way up). -/
def setattrN (depth : Nat) (fixed : Bool) (cs : VChildren)
    (label : String) (val : VEntry) :
    Except Err (VChildren × Option (List String × VEntry)) :=
  if fixed ∧ depth ≤ 1 then .error .fixedTree
  else match lookupC cs label with
    | some _ => .ok (replaceC cs label val, none)
    | none => .ok (appendC cs label val, some ([label], val))

/-- `ViewGroup.__getattr__` called explicitly (as `set_path` does): the
`object.__getattr__` super call always fails, then a fixed node raises
the fixed error (before the children check), then an existing child is
returned, and otherwise a fresh child group is created and appended. -/
def getattrN (fixed : Bool) (cs : VChildren) (label : String) :
    Except Err (VEntry × VChildren) :=
  if fixed then .error .fixedTree
  else match lookupC cs label with
    | some e => .ok (e, cs)
    | none => .ok (.sub false .nil, appendC cs label (.sub false .nil))

/-- `ViewGroup.set_path` below a node at the given depth: multi-label paths
walk (and create) intermediate groups via the explicit `__getattr__`, the
final label goes through `__setattr__`.  Returns the updated children and
the propagated `(full path, value)` item, if any. -/
def setPathN (depth : Nat) (fixed : Bool) (cs : VChildren) :
    List String → VEntry →
    Except Err (VChildren × Option (List String × VEntry))
  | [], _ => .error .indexError
  | [l], v => setattrN depth fixed cs l v
  | l :: l2 :: rest, v => do
      let (e, cs2) ← getattrN fixed cs l
      match e with
      | .sub f2 cs3 => do
          let (cs4, prop) ← setPathN (depth + 1) f2 cs3 (l2 :: rest) v
          .ok (replaceC cs2 l (.sub f2 cs4),
               prop.map (fun p => (l :: p.1, p.2)))
      | .leaf _ => .error .notAGroup

/-- `ViewGroup.set_path` from the root: the propagated item is recorded in
the root's `path_items` (`_propagate` stores `path -> val` there). -/
def ViewGroup.set_path (g : ViewGroup) (path : List String) (val : VEntry) :
    Except Err ViewGroup := do
  let (cs, prop) ← setPathN 0 g.fixed g.children path val
  .ok { g with
        children := cs
        path_items := (match prop with
          | some (p, v) => upd g.path_items p v
          | none => g.path_items) }

/-- Python attribute READ `g.label` through the normal attribute protocol:
when the label is already in the instance `__dict__`, ordinary lookup
succeeds and `__getattr__` is never invoked (so no fixed check happens);
only a missing label falls back to `ViewGroup.__getattr__`. -/
def pyAttrGet (fixed : Bool) (cs : VChildren) (label : String) :
    Except Err (VEntry × VChildren) :=
  match lookupC cs label with
  | some e => .ok (e, cs)
  | none => getattrN fixed cs label

/-- The Python statement `g.l1.l2 = v` on a root `ViewGroup` `g`: resolve
`g.l1` through the normal attribute protocol, then run `__setattr__` on
that first-level node (depth 1, consulting that node's own `_fixed` flag);
a resulting `_propagate` climbs to the root's `path_items` unconditionally. -/
def chainAssign (g : ViewGroup) (l1 l2 : String) (v : Leaf) :
    Except Err ViewGroup := do
  let (e, cs) ← pyAttrGet g.fixed g.children l1
  match e with
  | .sub f2 cs2 => do
      let (cs3, prop) ← setattrN 1 f2 cs2 l2 (.leaf v)
      .ok { g with
            children := replaceC cs l1 (.sub f2 cs3)
            path_items := (match prop with
              | some (p, pv) => upd g.path_items (l1 :: p) pv
              | none => g.path_items) }
  | .leaf _ => .error .notAGroup

/-- The children loop of `ViewGroup.update` on a node at the given depth:
for every label of `other` in order, a label not present in `self` is
adopted wholesale through `__setattr__` (fixed check at shallow depth,
append, `_propagate` of the single-label path), and a label present in
both runs `self[label].update(item)` — that tie call is written out here
arm by arm (by the kind of `item`) so that the recursion is structural;
`updateEntry` below states the tie as the single dispatching method and
`updateChildren_cons` proves the two presentations equal.  The second
component collects the `(path, value)` items `_propagate` pushes to the
root for labels adopted wholesale during the recursion. -/
def updateChildren (depth : Nat) (fixed : Bool) (cs : VChildren) :
    VChildren → Except Err (VChildren × List (List String × VEntry))
  | .nil => .ok (cs, [])
  | .cons l (.sub fo cs2) rest =>
      (match lookupC cs l with
       | none =>
           if fixed ∧ depth ≤ 1 then .error .fixedTree
           else do
             let (csr, ps) ←
               updateChildren depth fixed (appendC cs l (.sub fo cs2)) rest
             .ok (csr, ([l], VEntry.sub fo cs2) :: ps)
       | some (.sub f2 cs0) => do
           let (e2, ps) ← (updateChildren (depth + 1) f2 cs0 cs2).map
             (fun r => (VEntry.sub f2 r.1, r.2))
           let (csr, ps2) ←
             updateChildren depth fixed (replaceC cs l e2) rest
           .ok (csr, ps.map (fun p => (l :: p.1, p.2)) ++ ps2)
       | some (.leaf _) => .error .updateMismatch)
  | .cons l (.leaf w) rest =>
      (match lookupC cs l with
       | none =>
           if fixed ∧ depth ≤ 1 then .error .fixedTree
           else do
             let (csr, ps) ←
               updateChildren depth fixed (appendC cs l (.leaf w)) rest
             .ok (csr, ([l], VEntry.leaf w) :: ps)
       | some (.leaf v) => do
           let (e2, ps) ← (Leaf.updateL v w).map
             (fun r => (VEntry.leaf r, ([] : List (List String × VEntry))))
           let (csr, ps2) ←
             updateChildren depth fixed (replaceC cs l e2) rest
           .ok (csr, ps.map (fun p => (l :: p.1, p.2)) ++ ps2)
       | some (.sub _ _) => .error .updateMismatch)

/-- The recursive tie case of `ViewGroup.update`: `self[label].update(item)`.
Matching subtrees recurse (a non-root node never touches `path_items`);
matching leaves run the leaf value's own `update` method; a subtree paired
with a leaf (either way) is a type error. -/
def updateEntry (depth : Nat) :
    VEntry → VEntry → Except Err (VEntry × List (List String × VEntry))
  | .sub f cs, .sub _ cs2 =>
      (updateChildren depth f cs cs2).map (fun r => (VEntry.sub f r.1, r.2))
  | .leaf v, .leaf w =>
      (Leaf.updateL v w).map
        (fun r => (VEntry.leaf r, ([] : List (List String × VEntry))))
  | .sub _ _, .leaf _ => .error .updateMismatch
  | .leaf _, .sub _ _ => .error .updateMismatch

/-- `ViewGroup.update(other)` at the root: first the blind dict update
`self.path_items.update(other.path_items)`, then the children loop, whose
wholesale adoptions propagate their paths into the root's `path_items`. -/
def ViewGroup.update (g other : ViewGroup) : Except Err ViewGroup := do
  let pis := dictUpdate g.path_items other.path_items
  let (cs, ps) ← updateChildren 0 g.fixed g.children other.children
  .ok { g with
        children := cs
        path_items := ps.foldl (fun m p => upd m p.1 p.2) pis }

/-- `'.'.join(ref)` — the dotted form of a specification tuple. -/
def dotted (ref : List String) : String := String.intercalate "." ref

/-- The walk of `ViewRef._resolve_ref`: follow the labels down from the
node, at each level checking `label in obj` (a `ViewGroup`'s
`__contains__`); a missing label raises the resolution error carrying the
full dotted specification and that first missing label.  Walking into a
leaf value is modelled from the spec as a missing label (for a time-series
container Python's key membership test on a string label is false, and a
plain view admits no label access). -/
def walkRef (full : List String) : VEntry → List String → Except Err VEntry
  | e, [] => .ok e
  | .sub _ cs, l :: rest =>
      (match lookupC cs l with
       | some e2 => walkRef full e2 rest
       | none => .error (.unresolvedRef (dotted full) l))
  | .leaf _, l :: _ => .error (.unresolvedRef (dotted full) l)

/-- `view[slc]` applied after a successful walk, when a slice was recorded
for the specification. -/
def entrySlice (e : VEntry) (slc : Option Nat) : Except Err VEntry :=
  match slc with
  | none => .ok e
  | some i =>
      match e with
      | .leaf v => .ok (.leaf (v.index i))
      | .sub _ _ => .error .badIndex

/-- Overlay composition of two resolved operands
(`overlaid_view = overlaid_view * view`); only leaf values compose. -/
def entryMul (a b : VEntry) : Except Err VEntry :=
  match a, b with
  | .leaf v, .leaf w => .ok (.leaf (v.mul w))
  | _, _ => .error .notAGroup

/-- Resolve one specification tuple against the tree and apply its
recorded slice, if any (`self.slices.get(ref, None)`). -/
def resolveOne (g : ViewGroup) (slices : List (List String × Option Nat))
    (ref : List String) : Except Err VEntry := do
  let e ← walkRef ref (.sub g.fixed g.children) ref
  entrySlice e (lookupA slices ref).join

/-- The accumulator loop of `ViewRef.resolve`: the first resolved operand
seeds `overlaid_view`, each later operand is overlay-composed in. -/
def resolveFold (g : ViewGroup) (slices : List (List String × Option Nat)) :
    Option VEntry → List (List String) → Except Err (Option VEntry)
  | acc, [] => .ok acc
  | acc, ref :: rest => do
      let v ← resolveOne g slices ref
      match acc with
      | none => resolveFold g slices (some v) rest
      | some a => do
          let m ← entryMul a v
          resolveFold g slices (some m) rest

/-- A `ViewRef`: an ordered list of specification tuples and the mapping
from specification tuple to its optional slice. -/
structure ViewRef where
  specification : List (List String)
  slices : List (List String × Option Nat)

/-- `ViewRef.__mul__` (without the object-identity guard, which has no
pure counterpart; all composed handles here are distinct values):
concatenate the specifications and union the slice maps, the right-hand
side winning on key collision (`dict(self.slices, **other.slices)`). -/
def ViewRef.mul (a b : ViewRef) : ViewRef :=
  ⟨a.specification ++ b.specification, dictUpdate a.slices b.slices⟩

/-- `ViewRef.resolve(viewgroup)`: resolve every specification in order and
overlay-compose the results; an empty specification yields `None`. -/
def ViewRef.resolve (r : ViewRef) (g : ViewGroup) : Except Err (Option VEntry) :=
  resolveFold g r.slices none r.specification

/-- A key of the `Collector` template's `path_items`: either a structural
path tuple (propagated by attribute assignment) or the synthetic
`uuid.uuid4().hex` string used for merge-mode tasks. -/
inductive TKey where
  | tup (p : List String)
  | synth (s : String)
deriving DecidableEq

/-- `isinstance(path, tuple)`. -/
def TKey.isTup : TKey → Bool
  | .tup _ => true
  | .synth _ => false

/-- `tuple(path)` as applied by `set_path`: a tuple is unchanged, a string
key is exploded into the tuple of its characters. -/
def TKey.asPath : TKey → List String
  | .tup p => p
  | .synth s => s.toList.map (fun c => String.mk [c])

/-- `' '.join(self.path[::-1])`, the prefix used for the title rewrite: a
tuple path is reversed and joined with spaces; a string key is reversed
character by character and joined with spaces. -/
def TKey.joinRev : TKey → String
  | .tup p => String.intercalate " " p.reverse
  | .synth s => String.intercalate " " (s.toList.reverse.map (fun c => String.mk [c]))

/-- The two task modes of `Collector.for_type` / `Aggregator`. -/
inductive TaskMode
  | set
  | merge
deriving DecidableEq

/-- The value returned by an `Aggregator`'s hook: Python `None`, a leaf
value, or a `ViewGroup` (the only value accepted in merge mode). -/
inductive HookResult
  | noneR
  | leafR (v : Leaf)
  | groupR (g : ViewGroup)

/-- An `Aggregator` task.  `hook` stands for
`self.hook(self.obj.resolve(), *args, **kwargs)`: the hook output depends
on the state of the external source object, which evolves with the
simulation clock, so it is modelled as a function of the current time. -/
structure AggTask where
  mode : TaskMode
  hook : Int → HookResult
  path : Option TKey

/-- An `Analysis` task: a `ViewRef` into the output tree, a `ViewOperation`
on the resolved leaf value, and the `stackwise` flag.  Its `mode` is the
literal `'set'` (set in `Analysis.__init__`). -/
structure AnaTask where
  ref : ViewRef
  transform : Leaf → Leaf
  stackwise : Bool
  path : Option TKey

/-- A scheduled task: a plain `Aggregator` or an `Analysis`. -/
inductive STask
  | agg (t : AggTask)
  | ana (t : AnaTask)

/-- `isinstance(task, Analysis) and task.stackwise`. -/
def STask.isStackwiseAna : STask → Bool
  | .ana a => a.stackwise
  | .agg _ => false

/-- `task.path = path` during compilation. -/
def STask.withPath : STask → TKey → STask
  | .agg a, k => .agg { a with path := some k }
  | .ana a, k => .ana { a with path := some k }

/-- `task.mode` (an `Analysis` always has mode `'set'`). -/
def STask.modeOf : STask → TaskMode
  | .agg a => a.mode
  | .ana _ => .set

/-- `self.path in viewgroup` (`ViewGroup.__contains__` checks children
labels and `path_items` keys): a tuple path can only match a flat-index
key, a synthetic string key can only match a child label. -/
def pathMem (g : ViewGroup) : TKey → Bool
  | .tup p => (lookupA g.path_items p).isSome
  | .synth s => (lookupC g.children s).isSome

/-- The SET-mode wrap of a fresh non-container result in
`Aggregator.__call__`: a value with the templated title `'{label}'` gets
the reversed path segments joined in front of it, and the value is seeded
into a new time-series container holding the single pair `(time, val)`
over the `Time` dimension. -/
def wrapVal (pk : TKey) (time : Int) (v : Leaf) : Leaf :=
  match v with
  | .stack d es => .stack d es
  | v2 =>
      let v3 := if v2.titleOf = some "{label}"
        then v2.withTitle (pk.joinRev ++ "{label}") else v2
      .stack ["time"] [(time, v3)]

/-- `Aggregator._merge_views(current_val, val, time)`: a plain view is
inserted at the current time into the existing container; otherwise a
container lacking a `'time'` dimension is an error, and two containers are
merged with the container's own update. -/
def mergeViews (current : VEntry) (val : Leaf) (time : Int) :
    Except Err Leaf :=
  match val with
  | .view t d s =>
      match current with
      | .leaf (.stack dm es) => .ok (.stack dm (upd es time (.view t d s)))
      | _ => .error .updateMismatch
  | .overlayV ls =>
      match current with
      | .leaf (.stack dm es) => .ok (.stack dm (upd es time (.overlayV ls)))
      | _ => .error .updateMismatch
  | .stack _d2 es2 =>
      match current with
      | .leaf (.stack dm es) =>
          if dm.contains "time" then .ok (.stack dm (dictUpdate es es2))
          else .error .missingTimeDimension
      | _ => .error .updateMismatch

/-- The `mode == 'set'` tail of `Aggregator.__call__`, shared by plain
tasks and `Analysis`: a path not yet present in the target tree gets the
freshly wrapped value, a present path merges through `_merge_views`; the
final value goes through `set_path`. -/
def setModeApply (pk : TKey) (g : ViewGroup) (v : Leaf) (time : Int) :
    Except Err ViewGroup := do
  if pathMem g pk then
    match pk with
    | .tup p =>
        match lookupA g.path_items p with
        | some cur => do
            let v2 ← mergeViews cur v time
            g.set_path pk.asPath (.leaf v2)
        | none => .error .keyError
    | .synth _ => .error .keyError
  else
    g.set_path pk.asPath (.leaf (wrapVal pk time v))

/-- `Aggregator.__call__(viewgroup, time, times)`: fail when the path is
unset; a `None` hook value returns the tree unchanged; merge mode requires
a `ViewGroup` result and merges it in; set mode stores through
`setModeApply`.  (A set-mode `ViewGroup` result would hit the missing
`title` attribute in the wrap, an attribute error.) -/
def AggTask.call (t : AggTask) (g : ViewGroup) (time : Int) :
    Except Err ViewGroup :=
  match t.path with
  | none => .error .unscheduledTask
  | some pk =>
      match t.hook time with
      | .noneR => .ok g
      | .groupR g2 =>
          if t.mode = .merge then g.update g2
          else .error .updateMismatch
      | .leafR v =>
          if t.mode = .merge then .error .typeMismatch
          else setModeApply pk g v time

/-- `Analysis._get_result`: a stackwise task produces a value only when
the current time equals `times[-1]` (the last entry; an `IndexError` on an
empty list), otherwise `None`; a non-stackwise task resolves its reference
and applies the transform every step.  A reference resolving to a whole
subtree or to nothing cannot feed the `ViewOperation`. -/
def AnaTask.getResult (t : AnaTask) (g : ViewGroup) (time : Int)
    (times : List Int) : Except Err (Option Leaf) :=
  if t.stackwise then
    match times.getLast? with
    | none => .error .indexError
    | some last =>
        if time = last then do
          let r ← t.ref.resolve g
          match r with
          | some (.leaf v) => .ok (some (t.transform v))
          | _ => .error .notAGroup
        else .ok none
  else do
    let r ← t.ref.resolve g
    match r with
    | some (.leaf v) => .ok (some (t.transform v))
    | _ => .error .notAGroup

/-- `Analysis.__call__` is `Aggregator.__call__` with the overridden
`_get_result` and mode fixed to `'set'`. -/
def AnaTask.call (t : AnaTask) (g : ViewGroup) (time : Int)
    (times : List Int) : Except Err ViewGroup :=
  match t.path with
  | none => .error .unscheduledTask
  | some pk => do
      let r ← t.getResult g time times
      match r with
      | none => .ok g
      | some v => setModeApply pk g v time

/-- Invoke a scheduled task (`task(viewgroup, self.time_fn(), times)`). -/
def STask.call (t : STask) (g : ViewGroup) (time : Int) (times : List Int) :
    Except Err ViewGroup :=
  match t with
  | .agg a => a.call g time
  | .ana a => a.call g time times

/-- A template entry of the `Collector`: a task, or any other stored value
(the `junk` payload stands for the `%s`-formatted object in the error
message). -/
inductive TEntry
  | task (t : STask)
  | junk (descr : String)

/-- A `Collector`: its own fixed flag, the template `path_items` holding
the registered entries in insertion order, and the `_scheduled_tasks`
attribute. -/
structure Collector where
  fixed : Bool
  path_items : List (TKey × TEntry)
  scheduled : List STask

/-- The compile loop of `Collector._schedule_tasks`: the first non-task
entry, or merge-mode task under a tuple path, raises; otherwise each
task's `path` is assigned from its key and it joins the ordered run list. -/
def scheduleAux : List (TKey × TEntry) → Except Err (List STask)
  | [] => .ok []
  | (k, e) :: rest =>
      match e with
      | .junk d =>
          .error (.scheduling
            ("Only Aggregators or Analysis objects allowed, not " ++ d))
      | .task t =>
          if k.isTup ∧ t.modeOf = .merge then
            .error (.scheduling "Setting path for Task that is in merge mode.")
          else (scheduleAux rest).map (fun l => t.withPath k :: l)

/-- `Collector._schedule_tasks`: `self._scheduled_tasks` is reset to `[]`
on entry and again on either violation before the exception propagates,
so a failing compilation leaves the run list empty. -/
def Collector.scheduleTasks (c : Collector) : Collector × Option Err :=
  match scheduleAux c.path_items with
  | .ok l => ({ c with scheduled := l }, none)
  | .error e => ({ c with scheduled := [] }, some e)

/-- Observable clock events of a run: one `advance` per delta
(`self.time_hook(float(t))`) and one `sample` per call of
`self.time_fn()`. -/
inductive Ev
  | advance (d : Int)
  | sample (t : Int)
deriving DecidableEq

/-- `np.diff`: successive differences of a list. -/
def pyDiff : List Int → List Int
  | [] => []
  | [_] => []
  | a :: b :: r => (b - a) :: pyDiff (b :: r)

/-- The inner task loop of one time step of `Collector.__call__`: each
task samples the time source once (`self.time_fn()` in its argument
list); a stackwise `Analysis` runs against the persistent tree, any other
task runs against the shared per-step buffer after which the buffer is
merged into the persistent tree.  Returns the error (if any), the
persistent tree, the buffer and the event trace. -/
def stepTasks (times : List Int) (clock : Int) :
    List STask → ViewGroup → ViewGroup → List Ev →
    Option Err × ViewGroup × ViewGroup × List Ev
  | [], vg, buf, tr => (none, vg, buf, tr)
  | t :: rest, vg, buf, tr =>
      let tr2 := tr ++ [.sample clock]
      if t.isStackwiseAna then
        match t.call vg clock times with
        | .ok vg2 => stepTasks times clock rest vg2 buf tr2
        | .error e => (some e, vg, buf, tr2)
      else
        match t.call buf clock times with
        | .ok buf2 =>
            match vg.update buf2 with
            | .ok vg2 => stepTasks times clock rest vg2 buf2 tr2
            | .error e => (some e, vg, buf2, tr2)
        | .error e => (some e, vg, buf, tr2)

/-- The outer loop of `Collector.__call__`: for each delta of
`np.diff([0]+times)` in order, advance the clock by the delta, then run
every scheduled task with a fresh empty buffer for the step. -/
def runSteps (tasks : List STask) (times : List Int) :
    List Int → ViewGroup → Int → List Ev →
    Option Err × ViewGroup × Int × List Ev
  | [], vg, clock, tr => (none, vg, clock, tr)
  | d :: ds, vg, clock, tr =>
      let clock2 := clock + d
      let tr2 := tr ++ [.advance d]
      match stepTasks times clock2 tasks vg emptyVG tr2 with
      | (none, vg2, _, tr3) => runSteps tasks times ds vg2 clock2 tr3
      | (some e, vg2, _, tr3) => (some e, vg2, clock2, tr3)

/-- The observable outcome of `Collector.__call__`: the raised exception
(if any), the final states of the collector and of the output tree, the
final clock value and the clock event trace. -/
structure CallOut where
  err : Option Err
  coll : Collector
  vg : ViewGroup
  clock : Int
  trace : List Ev

/-- `Collector.__call__(viewgroup, times)`: unfix the template and the
output tree, compile the template (aborting on a scheduling error before
any step runs), execute the steps, and re-fix both trees on success (an
exception propagates before the fixing lines run). -/
def Collector.call (c : Collector) (g : ViewGroup) (times : List Int)
    (clock : Int) : CallOut :=
  let c2 := { c with fixed := false }
  let g2 := { g with fixed := false }
  match c2.scheduleTasks with
  | (c3, some e) => ⟨some e, c3, g2, clock, []⟩
  | (c3, none) =>
      match runSteps c3.scheduled times (pyDiff (0 :: times)) g2 clock [] with
      | (none, g3, clock2, tr) =>
          ⟨none, { c3 with fixed := true }, { g3 with fixed := true },
           clock2, tr⟩
      | (some e, g3, clock2, tr) => ⟨some e, c3, g3, clock2, tr⟩

/-- `Collector.__call__` through its signature
`def __call__(self, viewgroup=ViewGroup(), times=[])`: Python evaluates
the default argument once at function definition, so every call that
omits `viewgroup` receives the same shared `ViewGroup` object and mutates
it in place.  The shared object is threaded explicitly: `sharedDefault`
is its state before the call, and the returned fourth component is its
state afterwards (unchanged when an explicit tree was passed). -/
def Collector.callDefault (c : Collector) (arg : Option ViewGroup)
    (times : List Int) (sharedDefault : ViewGroup) (clock : Int) :
    CallOut × ViewGroup :=
  match arg with
  | some g => let out := c.call g times clock; (out, sharedDefault)
  | none => let out := c.call sharedDefault times clock; (out, out.vg)



/-! Characterisation helpers used only to state theorems. -/

/-- The first label of the given path missing during a plain walk of the
tree (`none` when the whole path exists). -/
def firstMissing : VEntry → List String → Option String
  | _, [] => none
  | .sub _ cs, l :: rest =>
      (match lookupC cs l with
       | some e => firstMissing e rest
       | none => some l)
  | .leaf _, l :: _ => some l

/-- A template entry that `_schedule_tasks` rejects: a non-task value, or
a merge-mode task stored under a structural tuple path. -/
def badEntry (k : TKey) (e : TEntry) : Prop :=
  (∃ d, e = .junk d) ∨
  (∃ t, e = .task t ∧ k.isTup = true ∧ t.modeOf = .merge)

/-- The advance deltas of a trace, in order. -/
def advances : List Ev → List Int
  | [] => []
  | .advance d :: r => d :: advances r
  | .sample _ :: r => advances r

/-- How often a trace samples the time source. -/
def sampleCount : List Ev → Nat
  | [] => 0
  | .sample _ :: r => sampleCount r + 1
  | .advance _ :: r => sampleCount r

/-- The trace a run over the given deltas produces when `k` tasks are
scheduled: per delta one advance, then one sample of the advanced clock
per task. -/
def expectedTrace (k : Nat) : List Int → Int → List Ev
  | [], _ => []
  | d :: ds, c =>
      (.advance d :: List.replicate k (.sample (c + d))) ++
        expectedTrace k ds (c + d)

/-! Concrete scenario objects used by the claim theorems. -/

/-- A one-entry children structure. -/
def childOne (l : String) (e : VEntry) : VChildren := .cons l e .nil

/-- A two-entry children structure. -/
def childTwo (l1 : String) (e1 : VEntry) (l2 : String) (e2 : VEntry) :
    VChildren :=
  .cons l1 e1 (.cons l2 e2 .nil)

/-- A set-mode task whose hook returns Python `None` at every step (a
benign no-op task). -/
def noneTask : STask := .agg ⟨.set, fun _ => .noneR, none⟩

/-- A collector template holding one benign set-mode task per given
synthetic key. -/
def benignCollector (keys : List String) : Collector :=
  ⟨false, keys.map (fun s => (.synth s, .task noneTask)), []⟩

/-- A stack `{1: x}` over the time dimension. -/
def stackX : Leaf := .stack ["time"] [(1, .view "t" "x" [])]

/-- A stack `{2: y}` over the time dimension. -/
def stackY : Leaf := .stack ["time"] [(2, .view "t" "y" [])]

/-- The `_merge_views`-merged stack `{1: x, 2: y}`. -/
def stackXY : Leaf :=
  .stack ["time"] [(1, .view "t" "x" []), (2, .view "t" "y" [])]

/-- A tree holding the single leaf `a.b = {1: x}`. -/
def c1T : ViewGroup :=
  ⟨false, childOne "a" (.sub false (childOne "b" (.leaf stackX))),
   [(["a", "b"], .leaf stackX)]⟩

/-- A tree holding the single leaf `a.b = {2: y}`. -/
def c1O : ViewGroup :=
  ⟨false, childOne "a" (.sub false (childOne "b" (.leaf stackY))),
   [(["a", "b"], .leaf stackY)]⟩

/-- The result of merging `c1O` into `c1T`: the structured leaf is merged
by the container's own update, but the flat-index entry is `c1O`'s leaf
verbatim. -/
def c1R : ViewGroup :=
  ⟨false, childOne "a" (.sub false (childOne "b" (.leaf stackXY))),
   [(["a", "b"], .leaf stackY)]⟩

/-- A first-level leaf `w`. -/
def wLeaf : Leaf := .view "t" "w" []

/-- A fresh leaf `v` to be assigned into a fixed tree. -/
def vLeaf : Leaf := .view "t" "v" []

/-- A tree with the leaf `a.b = w` whose ROOT has been fixed
(`g.fixed = True`); as in the source, fixing the root does not touch the
first-level child's own `_fixed` flag. -/
def fixedG : ViewGroup :=
  ⟨true, childOne "a" (.sub false (childOne "b" (.leaf wLeaf))),
   [(["a", "b"], .leaf wLeaf)]⟩

/-- What `fixedG.a.c = v` actually produces: the new leaf is created and
its path propagated into the fixed root's flat index. -/
def fixedGAfter : ViewGroup :=
  ⟨true,
   childOne "a" (.sub false (childTwo "b" (.leaf wLeaf) "c" (.leaf vLeaf))),
   [(["a", "b"], .leaf wLeaf), (["a", "c"], .leaf vLeaf)]⟩

/-- A tree holding a single leaf `p`. -/
def gP : ViewGroup :=
  ⟨false, childOne "p" (.leaf (.view "t" "p" [])),
   [(["p"], .leaf (.view "t" "p" []))]⟩

/-- A stackwise analysis task referencing `p`, writing to `q`. -/
def c4Task : AnaTask :=
  ⟨⟨[["p"]], [(["p"], none)]⟩, fun v => v, true, some (.tup ["q"])⟩

/-- A handle `a` sliced with index 1. -/
def c6A : ViewRef := ⟨[["a"]], [(["a"], some 1)]⟩

/-- A handle `a` sliced with index 2. -/
def c6B : ViewRef := ⟨[["a"]], [(["a"], some 2)]⟩

/-- A tree holding a single sliceable leaf `a`. -/
def c6T : ViewGroup :=
  ⟨false, childOne "a" (.leaf (.view "t" "d" [])),
   [(["a"], .leaf (.view "t" "d" []))]⟩

/-- The leaf `a` resolved through slice 1. -/
def c6v1 : Leaf := .view "t" "d" [1]

/-- The leaf `a` resolved through slice 2. -/
def c6v2 : Leaf := .view "t" "d" [2]

/-- A handle `b` with no slice. -/
def c6B2 : ViewRef := ⟨[["b"]], [(["b"], none)]⟩

/-- The leaf stored at `b` in `c6T2`. -/
def c6vb : Leaf := .view "t" "e" []

/-- A tree holding two sliceable leaves `a` and `b`. -/
def c6T2 : ViewGroup :=
  ⟨false, childTwo "a" (.leaf (.view "t" "d" [])) "b" (.leaf c6vb),
   [(["a"], .leaf (.view "t" "d" [])), (["b"], .leaf c6vb)]⟩

/-- A handle `x.y` (no slice). -/
def c7Ref : ViewRef := ⟨[["x", "y"]], [(["x", "y"], none)]⟩

/-- A tree with an empty group `x` (so `x.y` is missing at level `y`). -/
def c7G : ViewGroup := ⟨false, childOne "x" (.sub false .nil), []⟩

/-- The constant hook of Scenario A: a view of `"x"` with the templated
title, returned at every step. -/
def xView : Leaf := .view "{label}" "x" []

/-- The Scenario A set-mode task. -/
def constXTask : STask := .agg ⟨.set, fun _ => .leafR xView, none⟩

/-- The Scenario A collector: a SET task registered at path `("a","b")`. -/
def scenarioA : Collector :=
  ⟨false, [(.tup ["a", "b"], .task constXTask)], []⟩

/-- The per-step wrapped view of Scenario A: reversed path segments joined
in front of the templated title. -/
def c8w : Leaf := .view ((TKey.tup ["a", "b"]).joinRev ++ "{label}") "x" []

/-- A collector whose template holds a non-task entry. -/
def c2w : Collector := ⟨false, [(.synth "k", .junk "str")], []⟩

/-- A collector with a merge-mode task under a tuple path, and a stale
non-empty run list from an earlier compilation. -/
def c10w : Collector :=
  ⟨false, [(.tup ["a"], .task (.agg ⟨.merge, fun _ => .noneR, none⟩))],
   [noneTask]⟩

/-! ## Lemma toolkit: association lists -/

section AssocLemmas

variable {α β : Type} [DecidableEq α]

theorem lookupA_not_mem {m : List (α × β)} {k : α}
    (h : k ∉ m.map Prod.fst) : lookupA m k = none := by
  induction m with
  | nil => rfl
  | cons p r ih =>
      obtain ⟨p1, p2⟩ := p
      simp only [List.map_cons, List.mem_cons, not_or] at h
      by_cases hp : p1 = k
      · exact absurd hp.symm h.1
      · simp only [lookupA, if_neg hp]
        exact ih h.2

theorem lookupA_isSome_iff_mem (m : List (α × β)) (k : α) :
    (lookupA m k).isSome = true ↔ k ∈ m.map Prod.fst := by
  induction m with
  | nil => simp [lookupA]
  | cons p r ih =>
      obtain ⟨p1, p2⟩ := p
      by_cases h : p1 = k
      · subst h
        simp [lookupA]
      · simp only [lookupA, if_neg h, List.map_cons, List.mem_cons, ih]
        constructor
        · intro hh
          exact Or.inr hh
        · intro hh
          rcases hh with hh | hh
          · exact absurd hh.symm h
          · exact hh

theorem lookupA_append_left {m1 m2 : List (α × β)} {k : α} {v : β}
    (h : lookupA m1 k = some v) : lookupA (m1 ++ m2) k = some v := by
  induction m1 with
  | nil => simp [lookupA] at h
  | cons p r ih =>
      obtain ⟨p1, p2⟩ := p
      by_cases hp : p1 = k
      · subst hp
        simp only [lookupA, if_pos rfl] at h
        simp only [List.cons_append, lookupA, if_pos rfl]
        exact h
      · simp only [lookupA, if_neg hp] at h
        simp only [List.cons_append, lookupA, if_neg hp]
        exact ih h

theorem lookupA_append_right {m1 m2 : List (α × β)} {k : α}
    (h : lookupA m1 k = none) : lookupA (m1 ++ m2) k = lookupA m2 k := by
  induction m1 with
  | nil => simp
  | cons p r ih =>
      obtain ⟨p1, p2⟩ := p
      by_cases hp : p1 = k
      · subst hp
        simp [lookupA] at h
      · simp only [lookupA, if_neg hp] at h
        simp only [List.cons_append, lookupA, if_neg hp]
        exact ih h

theorem lookupA_append_single_ne {m : List (α × β)} {l0 l : α} {e0 : β}
    (h : l ≠ l0) : lookupA (m ++ [(l0, e0)]) l = lookupA m l := by
  cases hm : lookupA m l with
  | some v => exact lookupA_append_left hm
  | none =>
      rw [lookupA_append_right hm]
      simp only [lookupA, if_neg (fun hh : l0 = l => h hh.symm)]

theorem lookupA_replaceA_self {m : List (α × β)} {k : α} {w : β} (v : β)
    (h : lookupA m k = some w) : lookupA (replaceA m k v) k = some v := by
  induction m with
  | nil => simp [lookupA] at h
  | cons p r ih =>
      obtain ⟨p1, p2⟩ := p
      by_cases hp : p1 = k
      · subst hp
        simp [replaceA, lookupA]
      · simp only [lookupA, if_neg hp] at h
        simp only [replaceA, if_neg hp, lookupA, ih h]


theorem lookupA_replaceA_ne {m : List (α × β)} {k k2 : α} (v : β)
    (h : k2 ≠ k) : lookupA (replaceA m k v) k2 = lookupA m k2 := by
  induction m with
  | nil => rfl
  | cons p r ih =>
      obtain ⟨p1, p2⟩ := p
      by_cases hp : p1 = k
      · subst hp
        simp only [replaceA, if_pos rfl, lookupA,
          if_neg (fun hh : p1 = k2 => h hh.symm)]
      · simp only [replaceA, if_neg hp, lookupA]
        by_cases hq : p1 = k2
        · simp only [if_pos hq]
        · simp only [if_neg hq]
          exact ih

theorem lookupA_upd_self (m : List (α × β)) (k : α) (v : β) :
    lookupA (upd m k v) k = some v := by
  unfold upd
  by_cases hc : (m.map Prod.fst).contains k
  · rw [if_pos hc]
    have hmem : k ∈ m.map Prod.fst := by simpa using hc
    obtain ⟨w, hw⟩ := Option.isSome_iff_exists.mp ((lookupA_isSome_iff_mem m k).mpr hmem)
    exact lookupA_replaceA_self v hw
  · rw [if_neg hc]
    have hmem : k ∉ m.map Prod.fst := by simpa using hc
    rw [lookupA_append_right (lookupA_not_mem hmem)]
    simp [lookupA]

theorem lookupA_upd_ne (m : List (α × β)) (k k2 : α) (v : β) (h : k2 ≠ k) :
    lookupA (upd m k v) k2 = lookupA m k2 := by
  unfold upd
  by_cases hc : (m.map Prod.fst).contains k
  · rw [if_pos hc]
    exact lookupA_replaceA_ne v h
  · rw [if_neg hc]
    exact lookupA_append_single_ne h

theorem lookupA_upd_isSome_mono (m : List (α × β)) (k k2 : α) (v : β)
    (h : (lookupA m k2).isSome = true) :
    (lookupA (upd m k v) k2).isSome = true := by
  by_cases hk : k2 = k
  · subst hk
    simp [lookupA_upd_self]
  · rw [lookupA_upd_ne m k k2 v hk]
    exact h

theorem foldupd_isSome_mono {γ δ : Type} [DecidableEq γ]
    (ps : List (γ × δ)) (m : List (γ × δ)) (k : γ)
    (h : (lookupA m k).isSome = true) :
    (lookupA (ps.foldl (fun acc p => upd acc p.1 p.2) m) k).isSome = true := by
  induction ps generalizing m with
  | nil => exact h
  | cons p r ih => exact ih _ (lookupA_upd_isSome_mono _ _ _ _ h)

theorem dictUpdate_isSome_mono (m m2 : List (α × β)) (k : α)
    (h : (lookupA m k).isSome = true) :
    (lookupA (dictUpdate m m2) k).isSome = true :=
  foldupd_isSome_mono m2 m k h

theorem dictUpdate_lookup_of_none (m2 : List (α × β)) (m : List (α × β)) (k : α)
    (h : lookupA m2 k = none) : lookupA (dictUpdate m m2) k = lookupA m k := by
  induction m2 generalizing m with
  | nil => rfl
  | cons p r ih =>
      obtain ⟨p1, p2⟩ := p
      by_cases hp : p1 = k
      · subst hp
        simp [lookupA] at h
      · simp only [lookupA, if_neg hp] at h
        have : dictUpdate m ((p1, p2) :: r) = dictUpdate (upd m p1 p2) r := rfl
        rw [this, ih _ h]
        exact lookupA_upd_ne m p1 k p2 (fun hh => hp hh.symm)

theorem dictUpdate_lookup_of_some (m2 : List (α × β)) (m : List (α × β))
    (k : α) (v : β) (hnd : (m2.map Prod.fst).Nodup)
    (h : lookupA m2 k = some v) : lookupA (dictUpdate m m2) k = some v := by
  induction m2 generalizing m with
  | nil => simp [lookupA] at h
  | cons p r ih =>
      obtain ⟨p1, p2⟩ := p
      simp only [List.map_cons, List.nodup_cons] at hnd
      have hstep : dictUpdate m ((p1, p2) :: r) = dictUpdate (upd m p1 p2) r := rfl
      by_cases hp : p1 = k
      · subst hp
        have h2 : p2 = v := by simpa [lookupA] using h
        subst h2
        rw [hstep, dictUpdate_lookup_of_none _ _ _ (lookupA_not_mem hnd.1)]
        exact lookupA_upd_self m p1 p2
      · simp only [lookupA, if_neg hp] at h
        rw [hstep]
        exact ih _ hnd.2 h

end AssocLemmas

/-! ## Lemma toolkit: ordered children structures -/

theorem lookupC_append_ne : ∀ (cs : VChildren) {l0 l : String} {e0 : VEntry},
    l ≠ l0 → lookupC (appendC cs l0 e0) l = lookupC cs l
  | .nil, l0, l, e0, h => by
      simp only [appendC, lookupC, if_neg (fun hh : l0 = l => h hh.symm)]
  | .cons k v r, l0, l, e0, h => by
      simp only [appendC, lookupC]
      by_cases hk : k = l
      · simp [hk]
      · simp only [if_neg hk]
        exact lookupC_append_ne r h

theorem lookupC_append_self : ∀ (cs : VChildren) {l0 : String} (e0 : VEntry),
    lookupC cs l0 = none → lookupC (appendC cs l0 e0) l0 = some e0
  | .nil, l0, e0, _ => by simp [appendC, lookupC]
  | .cons k v r, l0, e0, h => by
      by_cases hk : k = l0
      · simp [lookupC, hk] at h
      · simp only [lookupC, if_neg hk] at h
        simp only [appendC, lookupC, if_neg hk]
        exact lookupC_append_self r e0 h

theorem lookupC_replaceC_self : ∀ (cs : VChildren) {l : String} {w : VEntry}
    (v : VEntry), lookupC cs l = some w →
    lookupC (replaceC cs l v) l = some v
  | .nil, l, w, v, h => by simp [lookupC] at h
  | .cons k u r, l, w, v, h => by
      by_cases hk : k = l
      · simp [replaceC, hk, lookupC]
      · simp only [lookupC, if_neg hk] at h
        simp only [replaceC, if_neg hk, lookupC, if_neg hk]
        exact lookupC_replaceC_self r v h

theorem lookupC_replaceC_ne : ∀ (cs : VChildren) {l l2 : String}
    (v : VEntry), l2 ≠ l → lookupC (replaceC cs l v) l2 = lookupC cs l2
  | .nil, l, l2, v, h => rfl
  | .cons k u r, l, l2, v, h => by
      by_cases hk : k = l
      · subst hk
        simp only [replaceC, if_pos rfl, lookupC,
          if_neg (fun hh : k = l2 => h hh.symm)]
      · simp only [replaceC, if_neg hk, lookupC]
        by_cases hq : k = l2
        · simp only [if_pos hq]
        · simp only [if_neg hq]
          exact lookupC_replaceC_ne r v h

theorem updateChildren_nil (d : Nat) (f : Bool) (cs : VChildren) :
    updateChildren d f cs .nil = .ok (cs, []) := rfl

theorem updateChildren_cons (d : Nat) (f : Bool) (cs : VChildren)
    (l : String) (e : VEntry) (rest : VChildren) :
    updateChildren d f cs (.cons l e rest) =
      (match lookupC cs l with
       | none =>
           if f ∧ d ≤ 1 then .error .fixedTree
           else do
             let (csr, ps) ← updateChildren d f (appendC cs l e) rest
             .ok (csr, ([l], e) :: ps)
       | some e0 => do
           let (e2, ps) ← updateEntry (d + 1) e0 e
           let (csr, ps2) ← updateChildren d f (replaceC cs l e2) rest
           .ok (csr, ps.map (fun p => (l :: p.1, p.2)) ++ ps2)) := by
  cases e with
  | sub fo cs2 =>
      cases hx : lookupC cs l with
      | none => simp [updateChildren, hx]
      | some e0 =>
          cases e0 with
          | sub f2 cs0 => simp [updateChildren, updateEntry, hx]
          | leaf v => simp [updateChildren, updateEntry, hx]
  | leaf w =>
      cases hx : lookupC cs l with
      | none => simp [updateChildren, hx]
      | some e0 =>
          cases e0 with
          | sub f2 cs0 => simp [updateChildren, updateEntry, hx]
          | leaf v => simp [updateChildren, updateEntry, hx]


/-! ## Scheduling errors (C2, C10), the fixed-tree breach (C5), stackwise timing (C4), reference resolution (C7, C6) -/

theorem scheduleAux_error_of_bad (l : List (TKey × TEntry))
    (h : ∃ p ∈ l, badEntry p.1 p.2) :
    ∃ m, scheduleAux l = .error (.scheduling m) := by
  induction l with
  | nil =>
      obtain ⟨p, hp, _⟩ := h
      simp at hp
  | cons hd tl ih =>
      obtain ⟨k, e⟩ := hd
      cases e with
      | junk d => exact ⟨_, rfl⟩
      | task t =>
          by_cases hc : k.isTup = true ∧ t.modeOf = .merge
          · exact ⟨"Setting path for Task that is in merge mode.",
              by simp [scheduleAux, hc]⟩
          · obtain ⟨p, hp, hb⟩ := h
            rcases List.mem_cons.mp hp with rfl | hptl
            · rcases hb with ⟨d, hd⟩ | ⟨t2, ht2, hit, hm⟩
              · exact absurd hd (by simp [badEntry])
              · injection ht2 with h3
                subst h3
                exact absurd ⟨hit, hm⟩ hc
            · obtain ⟨m, hm⟩ := ih ⟨p, hptl, hb⟩
              exact ⟨m, by simp [scheduleAux, hc, hm]⟩

/-- Claim C2: a template entry that is not a task, or a merge-mode task
keyed by a structural tuple path, makes `run` abort with a SchedulingError
during compilation, before any time step executes: the clock is never
advanced nor sampled (empty trace, clock untouched) and the output tree's
contents are unmutated. -/
theorem c2_scheduling_abort (c : Collector) (g : ViewGroup) (times : List Int)
    (clock : Int) (h : ∃ p ∈ c.path_items, badEntry p.1 p.2) :
    ∃ m, (c.call g times clock).err = some (.scheduling m) ∧
      (c.call g times clock).vg.children = g.children ∧
      (c.call g times clock).vg.path_items = g.path_items ∧
      (c.call g times clock).clock = clock ∧
      (c.call g times clock).trace = [] := by
  obtain ⟨m, hm⟩ := scheduleAux_error_of_bad c.path_items h
  exact ⟨m, by simp [Collector.call, Collector.scheduleTasks, hm]⟩

theorem c2_scheduling_abort_witness :
    ∃ m, (c2w.call emptyVG [1, 2] 0).err = some (.scheduling m) ∧
      (c2w.call emptyVG [1, 2] 0).vg.children = emptyVG.children ∧
      (c2w.call emptyVG [1, 2] 0).vg.path_items = emptyVG.path_items ∧
      (c2w.call emptyVG [1, 2] 0).clock = 0 ∧
      (c2w.call emptyVG [1, 2] 0).trace = [] :=
  c2_scheduling_abort c2w emptyVG [1, 2] 0
    ⟨(.synth "k", .junk "str"), by simp [c2w], Or.inl ⟨"str", rfl⟩⟩

/-- Claim C10: whenever compilation aborts with a SchedulingError the
compiled run list is reset to empty before the error propagates: no task
from the failed compilation, nor from any earlier compilation (the prior
`_scheduled_tasks` contents are arbitrary), remains scheduled. -/
theorem c10_reset_on_error (c : Collector)
    (h : ∃ p ∈ c.path_items, badEntry p.1 p.2) :
    c.scheduleTasks.1.scheduled = [] ∧
      ∃ m, c.scheduleTasks.2 = some (.scheduling m) := by
  obtain ⟨m, hm⟩ := scheduleAux_error_of_bad c.path_items h
  exact ⟨by simp [Collector.scheduleTasks, hm],
    m, by simp [Collector.scheduleTasks, hm]⟩

theorem c10_reset_on_error_witness :
    c10w.scheduleTasks.1.scheduled = [] ∧
      ∃ m, c10w.scheduleTasks.2 = some (.scheduling m) :=
  c10_reset_on_error c10w
    ⟨(.tup ["a"], .task (.agg ⟨.merge, fun _ => .noneR, none⟩)), by simp [c10w],
     Or.inr ⟨.agg ⟨.merge, fun _ => .noneR, none⟩, rfl, rfl, rfl⟩⟩


/-- Claim C5 (code evaluation at the failing input): on a tree whose ROOT
has been fixed, `__setattr__` and explicit `__getattr__` at the root raise
the fixed error for every label (even existing ones) — but the plain
attribute assignment `g.a.c = v` through the existing first-level child
`a` consults only `a`'s own (still false) `_fixed` flag, so it succeeds,
creates the leaf, and even propagates the new path `("a","c")` into the
fixed root's flat index, contradicting the documented behaviour of
`fixed`. -/
theorem c5_fixed_breach_eval :
    chainAssign fixedG "a" "c" vLeaf = .ok fixedGAfter ∧
    lookupA fixedGAfter.path_items ["a", "c"] = some (.leaf vLeaf) ∧
    fixedGAfter.fixed = true ∧
    (∀ lb v2, setattrN 0 fixedG.fixed fixedG.children lb v2 = .error .fixedTree) ∧
    (∀ lb, getattrN fixedG.fixed fixedG.children lb = .error .fixedTree) := by
  refine ⟨rfl, rfl, rfl, ?_, ?_⟩
  · intro lb v2
    simp [setattrN, fixedG]
  · intro lb
    simp [getattrN, fixedG]

/-- Claim C4 counterexample: with scheduled times `[2,1]` and current time
`2` — the maximum of all scheduled times — the stackwise task produces no
result and leaves the tree unchanged: the code compares the current time
against `times[-1] = 1`, not against the maximum. -/
theorem c4_stackwise_counterexample :
    c4Task.stackwise = true ∧
    (2 : Int) ∈ ([2, 1] : List Int) ∧
    (∀ x ∈ ([2, 1] : List Int), x ≤ 2) ∧
    c4Task.getResult gP 2 [2, 1] = .ok none ∧
    c4Task.call gP 2 [2, 1] = .ok gP := by
  have h1 : c4Task.getResult gP 2 [2, 1] = .ok none := by
    simp [AnaTask.getResult, c4Task]
  have hp : c4Task.path = some (.tup ["q"]) := rfl
  refine ⟨rfl, by decide, by decide, h1, ?_⟩
  simp [AnaTask.call, hp, h1]

/-- Claim C4 amended: for a stackwise analysis task the transform is
applied exactly when the current time equals the LAST entry of the
scheduled times (`times[-1]`), the maximum only when the times are
ascending; at every other step the task produces no result and the output
tree is unchanged. -/
theorem c4_stackwise_amended (t : AnaTask) (g : ViewGroup) (time last : Int)
    (times : List Int) (hs : t.stackwise = true)
    (hl : times.getLast? = some last) :
    (time ≠ last → t.getResult g time times = .ok none ∧
      ∀ pk, t.path = some pk → t.call g time times = .ok g) ∧
    (time = last → t.getResult g time times =
      (t.ref.resolve g >>= fun r =>
        match r with
        | some (.leaf v) => .ok (some (t.transform v))
        | _ => .error .notAGroup)) := by
  constructor
  · intro hne
    have h1 : t.getResult g time times = .ok none := by
      simp [AnaTask.getResult, hs, hl, hne]
    refine ⟨h1, fun pk hpk => ?_⟩
    simp [AnaTask.call, hpk, h1]
  · intro he
    subst he
    simp [AnaTask.getResult, hs, hl]

theorem c4_stackwise_amended_witness :
    c4Task.getResult gP 2 [2, 1] = .ok none ∧
      (∀ pk, c4Task.path = some pk → c4Task.call gP 2 [2, 1] = .ok gP) :=
  (c4_stackwise_amended c4Task gP 2 1 [2, 1] rfl rfl).1 (by decide)


theorem walkRef_error_of_missing (full : List String) (e : VEntry)
    (labels : List String) (lb : String)
    (h : firstMissing e labels = some lb) :
    walkRef full e labels = .error (.unresolvedRef (dotted full) lb) := by
  induction labels generalizing e with
  | nil => simp [firstMissing] at h
  | cons l rest ih =>
      cases e with
      | leaf v =>
          simp only [firstMissing, Option.some.injEq] at h
          subst h
          rfl
      | sub f cs =>
          cases hc : lookupC cs l with
          | none =>
              simp only [firstMissing, hc, Option.some.injEq] at h
              subst h
              simp [walkRef, hc]
          | some e2 =>
              simp only [firstMissing, hc] at h
              simp only [walkRef, hc]
              exact ih e2 h

theorem resolveFold_append (g : ViewGroup)
    (slices : List (List String × Option Nat)) (acc : Option VEntry)
    (l1 l2 : List (List String)) :
    resolveFold g slices acc (l1 ++ l2) =
      resolveFold g slices acc l1 >>= fun a => resolveFold g slices a l2 := by
  induction l1 generalizing acc with
  | nil => simp [resolveFold]
  | cons r rest ih =>
      simp only [List.cons_append, resolveFold]
      cases hr : resolveOne g slices r with
      | error e => simp [hr]
      | ok v =>
          simp only [hr, except_bind_ok]
          cases acc with
          | none => exact ih (some v)
          | some a =>
              cases hm : entryMul a v with
              | error e => simp [hm]
              | ok m =>
                  simp only [hm, except_bind_ok]
                  exact ih (some m)

/-- Claim C7: whenever some specification's labels go missing during the
walk (all earlier specifications having resolved), `resolve` fails with
the resolution error whose payload carries the full dotted specification
and the first missing label, and no partial result is returned. -/
theorem c7_unresolved_payload (r : ViewRef) (g : ViewGroup)
    (pre post : List (List String)) (ref : List String) (lb : String)
    (acc : Option VEntry)
    (hspec : r.specification = pre ++ ref :: post)
    (hpre : resolveFold g r.slices none pre = .ok acc)
    (hm : firstMissing (.sub g.fixed g.children) ref = some lb) :
    r.resolve g = .error (.unresolvedRef (dotted ref) lb) := by
  have hwalk := walkRef_error_of_missing ref (.sub g.fixed g.children) ref lb hm
  have hone : resolveOne g r.slices ref =
      .error (.unresolvedRef (dotted ref) lb) := by
    simp [resolveOne, hwalk]
  rw [ViewRef.resolve, hspec, resolveFold_append, hpre]
  simp only [except_bind_ok]
  simp [resolveFold, hone]

theorem c7_unresolved_payload_witness :
    c7Ref.resolve c7G = .error (.unresolvedRef (dotted ["x", "y"]) "y") ∧
      dotted ["x", "y"] = "x.y" :=
  ⟨c7_unresolved_payload c7Ref c7G [] [] ["x", "y"] "y" none rfl rfl rfl, rfl⟩

theorem leaf_mul_assoc (a b c : Leaf) :
    (a.mul b).mul c = a.mul (b.mul c) := by
  simp [Leaf.mul, Leaf.layers]

theorem resolveOne_congr (g : ViewGroup)
    (s1 s2 : List (List String × Option Nat)) (ref : List String)
    (h : lookupA s2 ref = lookupA s1 ref) :
    resolveOne g s2 ref = resolveOne g s1 ref := by
  simp [resolveOne, h]

theorem resolveFold_congr (g : ViewGroup)
    (s1 s2 : List (List String × Option Nat)) (acc : Option VEntry)
    (l : List (List String))
    (h : ∀ ref ∈ l, lookupA s2 ref = lookupA s1 ref) :
    resolveFold g s2 acc l = resolveFold g s1 acc l := by
  induction l generalizing acc with
  | nil => rfl
  | cons r rest ih =>
      have hr := resolveOne_congr g s1 s2 r (h r (by simp))
      have hrest : ∀ ref ∈ rest, lookupA s2 ref = lookupA s1 ref :=
        fun ref hm => h ref (by simp [hm])
      simp only [resolveFold, hr]
      cases hro : resolveOne g s1 r with
      | error e => simp
      | ok v =>
          simp only [except_bind_ok]
          cases acc with
          | none => exact ih _ hrest
          | some a =>
              cases hem : entryMul a v with
              | error e => simp [hem]
              | ok m =>
                  simp only [hem, except_bind_ok]
                  exact ih _ hrest

theorem resolveFold_sub_ne (g : ViewGroup)
    (s : List (List String × Option Nat)) (f : Bool)
    (cs : VChildren) (rest : List (List String)) (w : Leaf) :
    resolveFold g s (some (.sub f cs)) rest ≠ .ok (some (.leaf w)) := by
  cases rest with
  | nil =>
      intro h
      simp [resolveFold] at h
  | cons r rest2 =>
      intro h
      simp only [resolveFold] at h
      cases hro : resolveOne g s r with
      | error e => simp [hro] at h
      | ok v =>
          simp only [hro, except_bind_ok] at h
          have : entryMul (.sub f cs) v = .error .notAGroup := by
            cases v <;> simp [entryMul]
          simp [this] at h

theorem resolveFold_mul_shift (g : ViewGroup)
    (s : List (List String × Option Nat)) (rest : List (List String)) :
    ∀ (b w a : Leaf),
      resolveFold g s (some (.leaf b)) rest = .ok (some (.leaf w)) →
      resolveFold g s (some (.leaf (a.mul b))) rest =
        .ok (some (.leaf (a.mul w))) := by
  induction rest with
  | nil =>
      intro b w a h
      simp only [resolveFold, Except.ok.injEq, Option.some.injEq,
        VEntry.leaf.injEq] at h
      subst h
      rfl
  | cons r rest2 ih =>
      intro b w a h
      simp only [resolveFold] at h ⊢
      cases hro : resolveOne g s r with
      | error e => simp [hro] at h
      | ok v =>
          simp only [hro, except_bind_ok] at h ⊢
          cases v with
          | sub f2 cs2 => simp [entryMul] at h
          | leaf c =>
              simp only [entryMul, except_bind_ok] at h ⊢
              rw [leaf_mul_assoc]
              exact ih (b.mul c) w a h

theorem resolveFold_seed (g : ViewGroup)
    (s : List (List String × Option Nat)) (l : List (List String)) (w : Leaf)
    (h : resolveFold g s none l = .ok (some (.leaf w))) (a : Leaf) :
    resolveFold g s (some (.leaf a)) l = .ok (some (.leaf (a.mul w))) := by
  cases l with
  | nil => simp [resolveFold] at h
  | cons r rest =>
      simp only [resolveFold] at h ⊢
      cases hro : resolveOne g s r with
      | error e => simp [hro] at h
      | ok v =>
          simp only [hro, except_bind_ok] at h ⊢
          cases v with
          | sub f2 cs2 => exact absurd h (resolveFold_sub_ne g s f2 cs2 rest w)
          | leaf c =>
              simp only [entryMul, except_bind_ok]
              exact resolveFold_mul_shift g s rest c w a h

/-- Claim C6 amended: resolving an unchanged handle against an unchanged
tree twice yields equal results, and — provided neither handle's slice
map carries an entry for any of the other's specification tuples (in
particular whenever the two handles reference disjoint specifications) —
resolving `A.compose(B)` equals overlay-composing `A.resolve(T)` with
`B.resolve(T)`.  Without the proviso the composed slice map
(`dict(self.slices, **other.slices)`) changes the effective slice of a
shared specification, see the counterexample. -/
theorem c6_compose_amended (A B : ViewRef) (T : ViewGroup) (va vb : Leaf)
    (h1 : ∀ r ∈ A.specification, lookupA B.slices r = none)
    (h2 : ∀ r ∈ B.specification, lookupA A.slices r = none)
    (hndB : (B.slices.map Prod.fst).Nodup)
    (hA : A.resolve T = .ok (some (.leaf va)))
    (hB : B.resolve T = .ok (some (.leaf vb))) :
    (A.mul B).resolve T = .ok (some (.leaf (va.mul vb))) ∧
      A.resolve T = A.resolve T := by
  refine ⟨?_, rfl⟩
  have hAside : ∀ r ∈ A.specification,
      lookupA (dictUpdate A.slices B.slices) r = lookupA A.slices r :=
    fun r hr => dictUpdate_lookup_of_none _ _ _ (h1 r hr)
  have hBside : ∀ r ∈ B.specification,
      lookupA (dictUpdate A.slices B.slices) r = lookupA B.slices r := by
    intro r hr
    cases hbr : lookupA B.slices r with
    | some v => exact dictUpdate_lookup_of_some _ _ _ _ hndB hbr
    | none => rw [dictUpdate_lookup_of_none _ _ _ hbr, h2 r hr]
  show resolveFold T (dictUpdate A.slices B.slices) none
      (A.specification ++ B.specification) = _
  rw [resolveFold_append,
    resolveFold_congr T A.slices _ none A.specification hAside,
    show resolveFold T A.slices none A.specification = A.resolve T from rfl,
    hA]
  simp only [except_bind_ok]
  rw [resolveFold_congr T B.slices _ (some (.leaf va)) B.specification hBside]
  exact resolveFold_seed T B.slices B.specification vb hB va

theorem c6_compose_amended_witness :
    (c6A.mul c6B2).resolve c6T2 =
      .ok (some (.leaf ((Leaf.view "t" "d" [1]).mul c6vb))) ∧
      c6A.resolve c6T2 = c6A.resolve c6T2 :=
  c6_compose_amended c6A c6B2 c6T2 (.view "t" "d" [1]) c6vb
    (by intro r hr; simp [c6A] at hr; subst hr; simp [c6B2, lookupA])
    (by intro r hr; simp [c6B2] at hr; subst hr; simp [c6A, lookupA])
    (by simp [c6B2])
    rfl
    rfl

/-- Claim C6 counterexample: the two distinct handles `a[1]` and `a[2]`
both resolve in the tree, but resolving their composition applies `B`'s
slice to BOTH copies of the shared specification (`dict` union, right
side wins), so the result differs from overlay-composing the separate
resolutions. -/
theorem c6_compose_counterexample :
    (c6A.mul c6B).resolve c6T = .ok (some (.leaf (.overlayV [c6v2, c6v2]))) ∧
    c6A.resolve c6T = .ok (some (.leaf c6v1)) ∧
    c6B.resolve c6T = .ok (some (.leaf c6v2)) ∧
    c6v1.mul c6v2 = .overlayV [c6v1, c6v2] ∧
    Leaf.overlayV [c6v2, c6v2] ≠ Leaf.overlayV [c6v1, c6v2] := by
  refine ⟨rfl, rfl, rfl, rfl, ?_⟩
  simp [c6v1, c6v2]


/-! ## Tree merging (C1) -/

theorem updateChildren_preserve : ∀ (others : VChildren) (d : Nat) (f : Bool)
    (cs cs2 : VChildren) (ps : List (List String × VEntry)) (l : String),
    l ∉ keysC others →
    updateChildren d f cs others = .ok (cs2, ps) →
    lookupC cs2 l = lookupC cs l
  | .nil, d, f, cs, cs2, ps, l, _, h => by
      simp only [updateChildren, Except.ok.injEq, Prod.mk.injEq] at h
      rw [← h.1]
  | .cons l0 e0 rest, d, f, cs, cs2, ps, l, hl, h => by
      rw [updateChildren_cons] at h
      simp only [keysC, List.mem_cons, not_or] at hl
      cases hx : lookupC cs l0 with
      | none =>
          simp only [hx] at h
          by_cases hf : f ∧ d ≤ 1
          · simp [if_pos hf] at h
          · simp only [if_neg hf] at h
            cases hrec : updateChildren d f (appendC cs l0 e0) rest with
            | error e2 => simp [hrec] at h
            | ok pr =>
                obtain ⟨a, b⟩ := pr
                simp only [hrec, except_bind_ok, Except.ok.injEq,
                  Prod.mk.injEq] at h
                rw [← h.1, updateChildren_preserve rest d f _ _ _ _ hl.2 hrec]
                exact lookupC_append_ne cs hl.1
      | some ex =>
          simp only [hx] at h
          cases hue : updateEntry (d + 1) ex e0 with
          | error e2 => simp [hue] at h
          | ok pr1 =>
              obtain ⟨e2, ps1⟩ := pr1
              simp only [hue, except_bind_ok] at h
              cases hrec : updateChildren d f (replaceC cs l0 e2) rest with
              | error e3 => simp [hrec] at h
              | ok pr =>
                  obtain ⟨a, b⟩ := pr
                  simp only [hrec, except_bind_ok, Except.ok.injEq,
                    Prod.mk.injEq] at h
                  rw [← h.1,
                    updateChildren_preserve rest d f _ _ _ _ hl.2 hrec]
                  exact lookupC_replaceC_ne cs e2 hl.1

theorem updateChildren_lookup_adopt : ∀ (others : VChildren) (d : Nat)
    (f : Bool) (cs cs2 : VChildren) (ps : List (List String × VEntry))
    (l : String) (e : VEntry),
    (keysC others).Nodup →
    lookupC cs l = none → lookupC others l = some e →
    updateChildren d f cs others = .ok (cs2, ps) →
    lookupC cs2 l = some e
  | .nil, d, f, cs, cs2, ps, l, e, _, _, ho, _ => by
      simp [lookupC] at ho
  | .cons l0 e0 rest, d, f, cs, cs2, ps, l, e, hnd, hg, ho, h => by
      simp only [keysC, List.nodup_cons] at hnd
      rw [updateChildren_cons] at h
      by_cases hll : l0 = l
      · subst hll
        have he : e0 = e := by simpa [lookupC] using ho
        subst he
        simp only [hg] at h
        by_cases hf : f ∧ d ≤ 1
        · simp [if_pos hf] at h
        · simp only [if_neg hf] at h
          cases hrec : updateChildren d f (appendC cs l0 e0) rest with
          | error e2 => simp [hrec] at h
          | ok pr =>
              obtain ⟨a, b⟩ := pr
              simp only [hrec, except_bind_ok, Except.ok.injEq,
                Prod.mk.injEq] at h
              rw [← h.1,
                updateChildren_preserve rest d f _ _ _ _ hnd.1 hrec]
              exact lookupC_append_self cs e0 hg
      · have ho2 : lookupC rest l = some e := by
          simpa [lookupC, hll] using ho
        cases hx : lookupC cs l0 with
        | none =>
            simp only [hx] at h
            by_cases hf : f ∧ d ≤ 1
            · simp [if_pos hf] at h
            · simp only [if_neg hf] at h
              cases hrec : updateChildren d f (appendC cs l0 e0) rest with
              | error e2 => simp [hrec] at h
              | ok pr =>
                  obtain ⟨a, b⟩ := pr
                  simp only [hrec, except_bind_ok, Except.ok.injEq,
                    Prod.mk.injEq] at h
                  have hg2 : lookupC (appendC cs l0 e0) l = none := by
                    rw [lookupC_append_ne cs (fun hh => hll hh.symm)]
                    exact hg
                  rw [← h.1]
                  exact updateChildren_lookup_adopt rest d f _ _ _ _ _
                    hnd.2 hg2 ho2 hrec
        | some ex =>
            simp only [hx] at h
            cases hue : updateEntry (d + 1) ex e0 with
            | error e2 => simp [hue] at h
            | ok pr1 =>
                obtain ⟨e2, ps1⟩ := pr1
                simp only [hue, except_bind_ok] at h
                cases hrec : updateChildren d f (replaceC cs l0 e2) rest with
                | error e3 => simp [hrec] at h
                | ok pr =>
                    obtain ⟨a, b⟩ := pr
                    simp only [hrec, except_bind_ok, Except.ok.injEq,
                      Prod.mk.injEq] at h
                    have hg2 : lookupC (replaceC cs l0 e2) l = none := by
                      rw [lookupC_replaceC_ne cs e2 (fun hh => hll hh.symm)]
                      exact hg
                    rw [← h.1]
                    exact updateChildren_lookup_adopt rest d f _ _ _ _ _
                      hnd.2 hg2 ho2 hrec

theorem updateChildren_lookup_tie : ∀ (others : VChildren) (d : Nat)
    (f : Bool) (cs cs2 : VChildren) (ps : List (List String × VEntry))
    (l : String) (e1 e2 : VEntry),
    (keysC others).Nodup →
    lookupC cs l = some e1 → lookupC others l = some e2 →
    updateChildren d f cs others = .ok (cs2, ps) →
    ∃ r ps1, updateEntry (d + 1) e1 e2 = .ok (r, ps1) ∧
      lookupC cs2 l = some r
  | .nil, d, f, cs, cs2, ps, l, e1, e2, _, _, ho, _ => by
      simp [lookupC] at ho
  | .cons l0 e0 rest, d, f, cs, cs2, ps, l, e1, e2, hnd, hg, ho, h => by
      simp only [keysC, List.nodup_cons] at hnd
      rw [updateChildren_cons] at h
      by_cases hll : l0 = l
      · subst hll
        have he : e0 = e2 := by simpa [lookupC] using ho
        subst he
        simp only [hg] at h
        cases hue : updateEntry (d + 1) e1 e0 with
        | error e3 => simp [hue] at h
        | ok pr1 =>
            obtain ⟨r, ps1⟩ := pr1
            simp only [hue, except_bind_ok] at h
            cases hrec : updateChildren d f (replaceC cs l0 r) rest with
            | error e3 => simp [hrec] at h
            | ok pr =>
                obtain ⟨a, b⟩ := pr
                simp only [hrec, except_bind_ok, Except.ok.injEq,
                  Prod.mk.injEq] at h
                refine ⟨r, ps1, rfl, ?_⟩
                rw [← h.1,
                  updateChildren_preserve rest d f _ _ _ _ hnd.1 hrec]
                exact lookupC_replaceC_self cs r hg
      · have ho2 : lookupC rest l = some e2 := by
          simpa [lookupC, hll] using ho
        cases hx : lookupC cs l0 with
        | none =>
            simp only [hx] at h
            by_cases hf : f ∧ d ≤ 1
            · simp [if_pos hf] at h
            · simp only [if_neg hf] at h
              cases hrec : updateChildren d f (appendC cs l0 e0) rest with
              | error e3 => simp [hrec] at h
              | ok pr =>
                  obtain ⟨a, b⟩ := pr
                  simp only [hrec, except_bind_ok, Except.ok.injEq,
                    Prod.mk.injEq] at h
                  have hg2 : lookupC (appendC cs l0 e0) l = some e1 := by
                    rw [lookupC_append_ne cs (fun hh => hll hh.symm)]
                    exact hg
                  rw [← h.1]
                  exact updateChildren_lookup_tie rest d f _ _ _ _ _ _
                    hnd.2 hg2 ho2 hrec
        | some ex =>
            simp only [hx] at h
            cases hue : updateEntry (d + 1) ex e0 with
            | error e3 => simp [hue] at h
            | ok pr1 =>
                obtain ⟨e3, ps1⟩ := pr1
                simp only [hue, except_bind_ok] at h
                cases hrec : updateChildren d f (replaceC cs l0 e3) rest with
                | error e4 => simp [hrec] at h
                | ok pr =>
                    obtain ⟨a, b⟩ := pr
                    simp only [hrec, except_bind_ok, Except.ok.injEq,
                      Prod.mk.injEq] at h
                    have hg2 : lookupC (replaceC cs l0 e3) l = some e1 := by
                      rw [lookupC_replaceC_ne cs e3 (fun hh => hll hh.symm)]
                      exact hg
                    rw [← h.1]
                    exact updateChildren_lookup_tie rest d f _ _ _ _ _ _
                      hnd.2 hg2 ho2 hrec

/-- Claim C1 counterexample: both trees hold the path `("a","b")` in their
root flat index; after `T.update(O)` the flat-index entry is `O`'s leaf
verbatim — the blind `self.path_items.update(other.path_items)` — which
differs from the leaf the §4.3 task merge rule (`_merge_views`) would
produce, so the claimed merge-not-overwrite behaviour is false. -/
theorem c1_update_overwrites_counterexample :
    c1T.update c1O = .ok c1R ∧
    lookupA c1T.path_items ["a", "b"] = some (.leaf stackX) ∧
    lookupA c1O.path_items ["a", "b"] = some (.leaf stackY) ∧
    lookupA c1R.path_items ["a", "b"] = some (.leaf stackY) ∧
    mergeViews (.leaf stackX) stackY 2 = .ok stackXY ∧
    (VEntry.leaf stackY) ≠ (VEntry.leaf stackXY) := by
  refine ⟨rfl, rfl, rfl, rfl, rfl, ?_⟩
  simp [stackX, stackY, stackXY]

/-- Claim C1 amended: merging `O` into `T` blindly overwrites `T`'s root
flat-index entry with `O`'s on every key tie (shown here when the children
merge performs no wholesale adoptions, which would append further
propagated entries); in the structured tree, labels present only in `O`
are adopted wholesale, and labels present in both cause recursion into
the subtrees via `updateEntry` (leaf ties running the leaf's own update,
not the §4.3 task merge rule). -/
theorem c1_merge_amended (g o R : ViewGroup)
    (h : g.update o = .ok R)
    (hndp : (o.path_items.map Prod.fst).Nodup)
    (hndc : (keysC o.children).Nodup) :
    ((∃ cs0, updateChildren 0 g.fixed g.children o.children = .ok (cs0, [])) →
      ∀ k v, lookupA o.path_items k = some v →
        lookupA R.path_items k = some v) ∧
    (∀ l e, lookupC g.children l = none → lookupC o.children l = some e →
      lookupC R.children l = some e) ∧
    (∀ l e1 e2, lookupC g.children l = some e1 →
      lookupC o.children l = some e2 →
      ∃ r ps1, updateEntry 1 e1 e2 = .ok (r, ps1) ∧
        lookupC R.children l = some r) := by
  rw [ViewGroup.update] at h
  cases hu : updateChildren 0 g.fixed g.children o.children with
  | error e => rw [hu] at h; simp at h
  | ok pr =>
      obtain ⟨cs, ps⟩ := pr
      rw [hu] at h
      simp only [except_bind_ok, Except.ok.injEq] at h
      subst h
      refine ⟨?_, ?_, ?_⟩
      · rintro ⟨cs0, h0⟩ k v hk
        have hps : ps = [] := by
          simp only [Except.ok.injEq, Prod.mk.injEq] at h0
          exact h0.2
        subst hps
        simpa using dictUpdate_lookup_of_some _ _ _ _ hndp hk
      · intro l e hgc hoc
        exact updateChildren_lookup_adopt o.children 0 g.fixed
          g.children cs ps l e hndc hgc hoc hu
      · intro l e1 e2 hgc hoc
        exact updateChildren_lookup_tie o.children 0 g.fixed
          g.children cs ps l e1 e2 hndc hgc hoc hu

theorem c1_merge_amended_witness :
    lookupA c1R.path_items ["a", "b"] = some (.leaf stackY) ∧
    (∃ r ps1, updateEntry 1 (.sub false (childOne "b" (.leaf stackX)))
        (.sub false (childOne "b" (.leaf stackY))) = .ok (r, ps1) ∧
      lookupC c1R.children "a" = some r) := by
  have H := c1_merge_amended c1T c1O c1R rfl (by simp [c1O])
    (by simp [c1O, childOne, keysC])
  refine ⟨?_, ?_⟩
  · exact H.1 ⟨childOne "a" (.sub false (childOne "b" (.leaf stackXY))), rfl⟩
      ["a", "b"] (.leaf stackY) rfl
  · exact H.2.2 "a" _ _ rfl rfl

/-! ## Clock and sampling trace (C3), Scenario A (C8) -/

theorem advances_append (a b : List Ev) :
    advances (a ++ b) = advances a ++ advances b := by
  induction a with
  | nil => rfl
  | cons x r ih => cases x <;> simp [advances, ih]

theorem sampleCount_append (a b : List Ev) :
    sampleCount (a ++ b) = sampleCount a + sampleCount b := by
  induction a with
  | nil => simp [sampleCount]
  | cons x r ih =>
      cases x with
      | advance d => simp [sampleCount, ih]
      | sample t =>
          simp [sampleCount, ih]
          omega

theorem advances_replicate_sample (k : Nat) (t : Int) :
    advances (List.replicate k (.sample t)) = [] := by
  induction k with
  | zero => rfl
  | succ n ih => simp [List.replicate_succ, advances, ih]

theorem sampleCount_replicate_sample (k : Nat) (t : Int) :
    sampleCount (List.replicate k (.sample t)) = k := by
  induction k with
  | zero => rfl
  | succ n ih => simp [List.replicate_succ, sampleCount, ih]

theorem advances_expectedTrace (k : Nat) : ∀ (ds : List Int) (c : Int),
    advances (expectedTrace k ds c) = ds
  | [], _ => rfl
  | d :: ds, c => by
      simp [expectedTrace, advances_append, advances,
        advances_replicate_sample, advances_expectedTrace k ds (c + d)]

theorem sampleCount_expectedTrace (k : Nat) : ∀ (ds : List Int) (c : Int),
    sampleCount (expectedTrace k ds c) = ds.length * k
  | [], _ => by simp [expectedTrace, sampleCount]
  | d :: ds, c => by
      rw [expectedTrace, sampleCount_append, List.length_cons]
      simp only [sampleCount, sampleCount_replicate_sample,
        sampleCount_expectedTrace k ds (c + d)]
      ring

theorem update_emptyVG (g : ViewGroup) : g.update emptyVG = .ok g := rfl

theorem stepTasks_benign (times : List Int) (clock : Int) :
    ∀ (ts : List STask),
    (∀ t ∈ ts, ∃ pk, t = .agg ⟨.set, fun _ => .noneR, some pk⟩) →
    ∀ (vg : ViewGroup) (tr : List Ev),
      stepTasks times clock ts vg emptyVG tr =
        (none, vg, emptyVG, tr ++ List.replicate ts.length (.sample clock))
  | [], _, vg, tr => by simp [stepTasks]
  | t :: rest, h, vg, tr => by
      obtain ⟨pk, rfl⟩ := h t (by simp)
      have hrest : ∀ t2 ∈ rest, ∃ pk2,
          t2 = .agg ⟨.set, fun _ => .noneR, some pk2⟩ :=
        fun t2 ht2 => h t2 (List.mem_cons_of_mem _ ht2)
      simp only [stepTasks, STask.isStackwiseAna, STask.call, AggTask.call,
        update_emptyVG, Bool.false_eq_true, if_false]
      have hr := stepTasks_benign times clock rest hrest vg
        (tr ++ [Ev.sample clock])
      rw [hr]
      simp [List.replicate_succ]

theorem runSteps_benign (times : List Int) (ts : List STask)
    (h : ∀ t ∈ ts, ∃ pk, t = .agg ⟨.set, fun _ => .noneR, some pk⟩) :
    ∀ (ds : List Int) (vg : ViewGroup) (clock : Int) (tr : List Ev),
      runSteps ts times ds vg clock tr =
        (none, vg, ds.foldl (fun a b => a + b) clock,
         tr ++ expectedTrace ts.length ds clock)
  | [], vg, clock, tr => by simp [runSteps, expectedTrace]
  | d :: ds, vg, clock, tr => by
      simp only [runSteps, stepTasks_benign times (clock + d) ts h,
        runSteps_benign times ts h ds]
      simp [expectedTrace, List.append_assoc]

theorem scheduleAux_benign : ∀ (keys : List String),
    scheduleAux (keys.map (fun s => (.synth s, .task noneTask))) =
      .ok (keys.map (fun s => STask.withPath noneTask (.synth s)))
  | [] => rfl
  | s :: rest => by
      simp only [List.map_cons, scheduleAux, TKey.isTup]
      rw [scheduleAux_benign rest]
      simp [STask.withPath, noneTask]

/-- Claim C3 amended: for any number of benign registered tasks, `run`
advances the clock by the successive deltas of `[0]+times` in order, but
inside each step it samples the time source once PER TASK, after the
advance (`self.time_fn()` sits in each task's argument list, so a step
with k tasks samples k times, not exactly once). -/
theorem c3_clock_trace_amended (keys : List String) (times : List Int)
    (clock : Int) :
    ((benignCollector keys).call emptyVG times clock).err = none ∧
    ((benignCollector keys).call emptyVG times clock).trace =
      expectedTrace keys.length (pyDiff (0 :: times)) clock ∧
    advances (((benignCollector keys).call emptyVG times clock).trace) =
      pyDiff (0 :: times) ∧
    sampleCount (((benignCollector keys).call emptyVG times clock).trace) =
      (pyDiff (0 :: times)).length * keys.length := by
  have hmem : ∀ t ∈ keys.map (fun s => STask.withPath noneTask (.synth s)),
      ∃ pk, t = .agg ⟨.set, fun _ => .noneR, some pk⟩ := by
    intro t ht
    simp only [List.mem_map] at ht
    obtain ⟨s, _, rfl⟩ := ht
    exact ⟨.synth s, rfl⟩
  have hrun := runSteps_benign times
    (keys.map (fun s => STask.withPath noneTask (.synth s))) hmem
  have htr : ((benignCollector keys).call emptyVG times clock).trace =
      expectedTrace keys.length (pyDiff (0 :: times)) clock := by
    simp only [Collector.call, Collector.scheduleTasks, benignCollector,
      scheduleAux_benign, hrun]
    simp
  have herr : ((benignCollector keys).call emptyVG times clock).err = none := by
    simp only [Collector.call, Collector.scheduleTasks, benignCollector,
      scheduleAux_benign, hrun]
  refine ⟨herr, htr, ?_, ?_⟩
  · rw [htr, advances_expectedTrace]
  · rw [htr, sampleCount_expectedTrace]

/-- Claim C3 counterexample: with two registered tasks and
`times = [1,2,3]`, the clock advances by deltas `1,1,1` in order, but the
time source is sampled six times — once per task inside each step's task
loop — not exactly once per step (three steps, six samples). -/
theorem c3_sampling_counterexample :
    advances ((benignCollector ["u", "v"]).call emptyVG [1, 2, 3] 0).trace =
      [1, 1, 1] ∧
    ((benignCollector ["u", "v"]).call emptyVG [1, 2, 3] 0).trace =
      [.advance 1, .sample 1, .sample 1, .advance 1, .sample 2, .sample 2,
       .advance 1, .sample 3, .sample 3] ∧
    sampleCount ((benignCollector ["u", "v"]).call emptyVG [1, 2, 3] 0).trace
      = 6 ∧
    (pyDiff (0 :: [1, 2, 3])).length = 3 :=
  ⟨rfl, rfl, rfl, rfl⟩

/-- Claim C8 (Scenario A): a SET task registered at path `("a","b")` whose
hook returns the constant view `"x"` every step makes
`run(times=[1,2,3])` produce an output tree whose leaf at `a.b` is a
time-series container with exactly three entries keyed `1, 2, 3`, each
holding the wrapped `"x"` view, and the run raises no error. -/
theorem c8_set_task_accumulates :
    (scenarioA.call emptyVG [1, 2, 3] 0).err = none ∧
    treeGet (scenarioA.call emptyVG [1, 2, 3] 0).vg ["a", "b"] =
      some (.leaf (.stack ["time"] [(1, c8w), (2, c8w), (3, c8w)])) :=
  ⟨rfl, rfl⟩

/-! ## The shared default output tree (C9) -/

theorem set_path_keys_mono (g g2 : ViewGroup) (p : List String) (v : VEntry)
    (h : g.set_path p v = .ok g2) (k : List String)
    (hk : (lookupA g.path_items k).isSome = true) :
    (lookupA g2.path_items k).isSome = true := by
  rw [ViewGroup.set_path] at h
  cases hs : setPathN 0 g.fixed g.children p v with
  | error e => rw [hs] at h; simp at h
  | ok pr =>
      obtain ⟨cs, prop⟩ := pr
      rw [hs] at h
      simp only [except_bind_ok, Except.ok.injEq] at h
      subst h
      cases prop with
      | none => exact hk
      | some pv =>
          obtain ⟨pp, vv⟩ := pv
          exact lookupA_upd_isSome_mono _ _ _ _ hk

theorem update_keys_mono (g o g2 : ViewGroup) (h : g.update o = .ok g2)
    (k : List String) (hk : (lookupA g.path_items k).isSome = true) :
    (lookupA g2.path_items k).isSome = true := by
  rw [ViewGroup.update] at h
  cases hu : updateChildren 0 g.fixed g.children o.children with
  | error e => rw [hu] at h; simp at h
  | ok pr =>
      obtain ⟨cs, ps⟩ := pr
      rw [hu] at h
      simp only [except_bind_ok, Except.ok.injEq] at h
      subst h
      exact foldupd_isSome_mono ps _ k (dictUpdate_isSome_mono _ _ _ hk)

theorem setModeApply_keys_mono (pk : TKey) (g g2 : ViewGroup) (v : Leaf)
    (time : Int) (k : List String)
    (h : setModeApply pk g v time = .ok g2)
    (hk : (lookupA g.path_items k).isSome = true) :
    (lookupA g2.path_items k).isSome = true := by
  rw [setModeApply.eq_def] at h
  split at h
  · split at h
    · split at h
      · rename_i cur heq
        cases hm : mergeViews cur v time with
        | error e => rw [hm] at h; simp at h
        | ok v2 =>
            rw [hm] at h
            simp only [except_bind_ok] at h
            exact set_path_keys_mono g g2 _ _ h k hk
      · simp at h
    · simp at h
  · exact set_path_keys_mono g g2 _ _ h k hk

theorem aggCall_keys_mono (t : AggTask) (g g2 : ViewGroup) (time : Int)
    (h : t.call g time = .ok g2) (k : List String)
    (hk : (lookupA g.path_items k).isSome = true) :
    (lookupA g2.path_items k).isSome = true := by
  rw [AggTask.call] at h
  cases hp : t.path with
  | none =>
      simp only [hp] at h
      exact Except.noConfusion h
  | some pk =>
      simp only [hp] at h
      cases hh : t.hook time with
      | noneR =>
          simp only [hh, Except.ok.injEq] at h
          subst h
          exact hk
      | groupR gg =>
          simp only [hh] at h
          by_cases hm : t.mode = .merge
          · rw [if_pos hm] at h
            exact update_keys_mono g gg g2 h k hk
          · rw [if_neg hm] at h
            simp at h
      | leafR v =>
          simp only [hh] at h
          by_cases hm : t.mode = .merge
          · rw [if_pos hm] at h
            simp at h
          · rw [if_neg hm] at h
            exact setModeApply_keys_mono pk g g2 v time k h hk

theorem anaCall_keys_mono (t : AnaTask) (g g2 : ViewGroup) (time : Int)
    (times : List Int) (h : t.call g time times = .ok g2) (k : List String)
    (hk : (lookupA g.path_items k).isSome = true) :
    (lookupA g2.path_items k).isSome = true := by
  rw [AnaTask.call] at h
  cases hp : t.path with
  | none =>
      simp only [hp] at h
      exact Except.noConfusion h
  | some pk =>
      simp only [hp] at h
      cases hr : t.getResult g time times with
      | error e => rw [hr] at h; simp at h
      | ok r =>
          rw [hr] at h
          simp only [except_bind_ok] at h
          cases r with
          | none =>
              simp only [Except.ok.injEq] at h
              subst h
              exact hk
          | some v => exact setModeApply_keys_mono pk g g2 v time k h hk

theorem staskCall_keys_mono (t : STask) (g g2 : ViewGroup) (time : Int)
    (times : List Int) (h : t.call g time times = .ok g2) (k : List String)
    (hk : (lookupA g.path_items k).isSome = true) :
    (lookupA g2.path_items k).isSome = true := by
  cases t with
  | agg a => exact aggCall_keys_mono a g g2 time h k hk
  | ana a => exact anaCall_keys_mono a g g2 time times h k hk

theorem stepTasks_keys_mono (times : List Int) (clock : Int) :
    ∀ (ts : List STask) (vg buf : ViewGroup) (tr : List Ev) (k : List String),
      (lookupA vg.path_items k).isSome = true →
      (lookupA (stepTasks times clock ts vg buf tr).2.1.path_items k).isSome
        = true
  | [], _, _, _, _, hk => hk
  | t :: rest, vg, buf, tr, k, hk => by
      simp only [stepTasks]
      by_cases hsw : t.isStackwiseAna = true
      · rw [if_pos hsw]
        cases hc : t.call vg clock times with
        | ok vg2 =>
            exact stepTasks_keys_mono times clock rest vg2 buf _ k
              (staskCall_keys_mono t vg vg2 clock times hc k hk)
        | error e => exact hk
      · rw [if_neg hsw]
        cases hc : t.call buf clock times with
        | ok buf2 =>
            dsimp only
            cases hu : vg.update buf2 with
            | ok vg2 =>
                exact stepTasks_keys_mono times clock rest vg2 buf2 _ k
                  (update_keys_mono vg buf2 vg2 hu k hk)
            | error e => exact hk
        | error e => exact hk

theorem runSteps_keys_mono (ts : List STask) (times : List Int) :
    ∀ (ds : List Int) (vg : ViewGroup) (clock : Int) (tr : List Ev)
      (k : List String),
      (lookupA vg.path_items k).isSome = true →
      (lookupA (runSteps ts times ds vg clock tr).2.1.path_items k).isSome
        = true
  | [], _, _, _, _, hk => hk
  | d :: ds, vg, clock, tr, k, hk => by
      simp only [runSteps]
      have hst := stepTasks_keys_mono times (clock + d) ts vg emptyVG
        (tr ++ [.advance d]) k hk
      rcases hq : stepTasks times (clock + d) ts vg emptyVG
        (tr ++ [.advance d]) with ⟨oe, vg2, buf2, tr3⟩
      rw [hq] at hst
      rw [hq]
      cases oe with
      | none => exact runSteps_keys_mono ts times ds vg2 (clock + d) tr3 k hst
      | some e => exact hst

theorem call_keys_mono (c : Collector) (g : ViewGroup) (times : List Int)
    (clock : Int) (k : List String)
    (hk : (lookupA g.path_items k).isSome = true) :
    (lookupA ((c.call g times clock).vg.path_items) k).isSome = true := by
  simp only [Collector.call]
  rcases hs : Collector.scheduleTasks { c with fixed := false } with ⟨c3, oe⟩
  cases oe with
  | some e => exact hk
  | none =>
      dsimp only
      have hr := runSteps_keys_mono c3.scheduled times (pyDiff (0 :: times))
        { g with fixed := false } clock [] k hk
      rcases hq : runSteps c3.scheduled times (pyDiff (0 :: times))
        { g with fixed := false } clock [] with ⟨oe2, g3, clock2, tr⟩
      rw [hq] at hr
      cases oe2 with
      | none =>
          dsimp only
          exact hr
      | some e =>
          dsimp only
          exact hr

/-- Claim C9: the `viewgroup=ViewGroup()` default argument is one shared
mutable tree: a call omitting the argument operates on the shared object
itself (the returned tree IS the shared object's new state), a second
argument-omitting call receives exactly that state and its result still
contains every flat path collected by the first run, while a call passing
an explicit tree leaves the shared object untouched. -/
theorem c9_shared_default (ca cb : Collector) (t1 t2 : List Int)
    (shared : ViewGroup) (k1 k2 : Int) :
    (ca.callDefault none t1 shared k1).2 =
      ((ca.callDefault none t1 shared k1).1).vg ∧
    (∀ k,
      (lookupA (((ca.callDefault none t1 shared k1).1).vg.path_items)
        k).isSome = true →
      (lookupA (((cb.callDefault none t2
          ((ca.callDefault none t1 shared k1).2) k2).1).vg.path_items)
        k).isSome = true) ∧
    (∀ g, (ca.callDefault (some g) t1 shared k1).2 = shared) := by
  refine ⟨rfl, ?_, fun g => rfl⟩
  intro k hk
  exact call_keys_mono cb ((ca.call shared t1 k1).vg) t2 k2 k hk

theorem c9_shared_default_witness :
    (lookupA (((scenarioA.callDefault none [1] emptyVG 0).1).vg.path_items)
        ["a", "b"]).isSome = true ∧
    (lookupA (((scenarioA.callDefault none [2]
        ((scenarioA.callDefault none [1] emptyVG 0).2) 1).1).vg.path_items)
        ["a", "b"]).isSome = true :=
  ⟨rfl, (c9_shared_default scenarioA scenarioA [1] [2] emptyVG 0 1).2.1
      ["a", "b"] rfl⟩

end Dataviews
